import Mathlib

/-!
Verification of the chatmaild `doveauth` module: the escaped line-protocol
tokenizer (`split_and_unescape`), the account-creation policy
(`is_allowed_to_create`), the lookup/provisioning engine (`lookup_userdb`,
`lookup_passdb`) and the dict-proxy dispatcher (`handle_lookup`,
`handle_iterate`, `iter_userdb`).

Python strings are embedded as `List Char`; Python `None` / raised
exceptions are embedded as `Option` (`none` = no value / exception
escaped, as indicated at each definition).  The collaborating `Config`
store operations (`config.py` is not part of the sources; only its
interface appears in `doveauth.py`) are modelled from the spec, as marked
on each definition.
-/

/-- Python strings, embedded as lists of characters. -/
abbrev Str := List Char

/-- Configuration interface consumed by `doveauth.py`: mail domain, password
and username length limits, and the mailboxes directory used to derive
per-user paths. -/
structure Config where
  mail_domain : Str
  password_min_length : Nat
  username_min_length : Nat
  username_max_length : Nat
  mailboxes_dir : Str
deriving DecidableEq

/-- Helper for `pySplit`: returns the first segment of `s` up to the first
occurrence of `sep`, paired with the list of remaining segments. -/
def pySplitF (sep : Char) : Str → Str × List Str
  | [] => ([], [])
  | c :: rest =>
    if c = sep then ([], (pySplitF sep rest).1 :: (pySplitF sep rest).2)
    else (c :: (pySplitF sep rest).1, (pySplitF sep rest).2)

/-- Embedding of Python `s.split(sep)` (unlimited splits, single-character
separator): always returns at least one (possibly empty) segment. -/
def pySplit (sep : Char) (s : Str) : List Str :=
  (pySplitF sep s).1 :: (pySplitF sep s).2

/-- Embedding of `is_allowed_to_create` from `doveauth.py`.  The check
`os.path.exists(NOCREATE_FILE)` is a read of external filesystem state and
is passed in as the boolean `nocreate`. -/
def is_allowed_to_create (nocreate : Bool) (config : Config)
    (user : Str) (cleartext_password : Str) : Bool :=
  if nocreate then false
  else if cleartext_password.length < config.password_min_length then false
  else
    match pySplit '@' user with
    | [localpart, _domain] =>
      if localpart = "echo".data then false
      else if localpart.length > config.username_max_length
          ∨ localpart.length < config.username_min_length then false
      else true
    | _ => false

theorem pySplit_ne_nil (sep : Char) (s : Str) : pySplit sep s ≠ [] := by
  simp [pySplit]

theorem pySplitF_append_sep (sep : Char) (lp : Str) (h : sep ∉ lp) (rest : Str) :
    pySplitF sep (lp ++ sep :: rest) =
      ([] ++ lp, (pySplitF sep rest).1 :: (pySplitF sep rest).2) := by
  induction lp with
  | nil => simp [pySplitF]
  | cons c cs ih =>
    have hc : ¬ c = sep := fun e => h (e ▸ List.mem_cons_self c cs)
    have hcs : sep ∉ cs := fun e => h (List.mem_cons_of_mem c e)
    simp [pySplitF, hc, ih hcs]

/-- Splitting a string that is `lp ++ sep ++ rest` with `sep` absent from
`lp` yields `lp` as first segment followed by the split of `rest`. -/
theorem pySplit_append_sep (sep : Char) (lp : Str) (h : sep ∉ lp) (rest : Str) :
    pySplit sep (lp ++ sep :: rest) = lp :: pySplit sep rest := by
  simp [pySplit, pySplitF_append_sep sep lp h rest]

/-- Fixed configuration used to exercise the policy boundary: username
length bounds 6 and 10. -/
def cfgBounds : Config :=
  { mail_domain := "example.org".data
    password_min_length := 1
    username_min_length := 6
    username_max_length := 10
    mailboxes_dir := "/home/vmail/mail".data }

/-- C4: `is_allowed_to_create` returns `true` iff all checks pass: the
nocreate marker is absent, the password is long enough, the user splits in
exactly two parts at `@`, the localpart is not the reserved name `echo`,
and the localpart length lies within the inclusive username bounds.  With
bounds 6 and 10, localpart lengths 5 and 11 are rejected and 6 and 10 are
accepted. -/
theorem is_allowed_to_create_iff :
    (∀ (nc : Bool) (cfg : Config) (user pw : Str),
      is_allowed_to_create nc cfg user pw = true ↔
        nc = false ∧ cfg.password_min_length ≤ pw.length ∧
        ∃ lp dom, pySplit '@' user = [lp, dom] ∧ lp ≠ "echo".data ∧
          cfg.username_min_length ≤ lp.length ∧
          lp.length ≤ cfg.username_max_length) ∧
    is_allowed_to_create false cfgBounds "a1234@example.org".data "pw123456".data
      = false ∧
    is_allowed_to_create false cfgBounds "a12345@example.org".data "pw123456".data
      = true ∧
    is_allowed_to_create false cfgBounds "a123456789@example.org".data "pw123456".data
      = true ∧
    is_allowed_to_create false cfgBounds "a1234567890@example.org".data "pw123456".data
      = false := by
  refine ⟨?_, by decide, by decide, by decide, by decide⟩
  intro nc cfg user pw
  unfold is_allowed_to_create
  rcases nc with _ | _
  · constructor
    · intro h
      refine ⟨rfl, ?_, ?_⟩
      · by_contra hlen
        simp [Nat.lt_of_not_le hlen] at h
      · have hlen : ¬ pw.length < cfg.password_min_length := by
          intro hlt
          simp [hlt] at h
        simp only [if_neg hlen, Bool.false_eq_true, if_false] at h
        match hs : pySplit '@' user with
        | [lp, dom] =>
          rw [hs] at h
          refine ⟨lp, dom, rfl, ?_, ?_, ?_⟩
          · intro he; simp [he] at h
          · by_contra hmin
            have : lp.length > cfg.username_max_length
                ∨ lp.length < cfg.username_min_length :=
              Or.inr (Nat.lt_of_not_le hmin)
            simp [this] at h
          · by_contra hmax
            have : lp.length > cfg.username_max_length
                ∨ lp.length < cfg.username_min_length :=
              Or.inl (Nat.lt_of_not_le hmax)
            simp [this] at h
        | [] => rw [hs] at h; simp at h
        | [lp] => rw [hs] at h; simp at h
        | lp :: dom :: x :: xs => rw [hs] at h; simp at h
    · rintro ⟨-, hpw, lp, dom, hs, hecho, hmin, hmax⟩
      have h1 : ¬ pw.length < cfg.password_min_length := Nat.not_lt.mpr hpw
      have h2 : ¬ (lp.length > cfg.username_max_length
          ∨ lp.length < cfg.username_min_length) := by
        push_neg
        exact ⟨hmax, hmin⟩
      simp [h1, hs, hecho, h2]
  · simp

/-- C5: an address whose localpart is the reserved system-account name
`echo` is never creatable: `is_allowed_to_create` returns `false` for
`echo@<anything>` whatever the nocreate flag, configuration and password. -/
theorem echo_never_creatable (nc : Bool) (cfg : Config) (dom pw : Str) :
    is_allowed_to_create nc cfg ("echo".data ++ '@' :: dom) pw = false := by
  have hno : '@' ∉ "echo".data := by decide
  have hs : pySplit '@' ("echo".data ++ '@' :: dom)
      = "echo".data :: pySplit '@' dom :=
    pySplit_append_sep '@' "echo".data hno dom
  unfold is_allowed_to_create
  rcases nc with _ | _
  · by_cases hlen : pw.length < cfg.password_min_length
    · simp [hlen]
    · rw [if_neg hlen, hs]
      match htl : pySplit '@' dom with
      | [] => exact absurd htl (pySplit_ne_nil '@' dom)
      | [d] => simp
      | d :: e :: rest => simp
  · simp

/-- Derived user record: the flat result dictionary produced by the lookup
operations (`addr`, `password`, `home`, `uid`, `gid`). -/
structure UserRecord where
  addr : Str
  password : Str
  home : Str
  uid : Str
  gid : Str
deriving DecidableEq

/-- The account-directory store: one `(address, stored password file
contents)` entry per established account. -/
abbrev Store := List (Str × Str)

/-- Reads the password file of `user`: `some` contents when the account is
established, `none` otherwise. -/
def lookupStore : Store → Str → Option Str
  | [], _ => none
  | (a, h) :: rest, user => if a = user then some h else lookupStore rest user

/-- Modelled from the spec: `config.get_user_dict` (from `config.py`,
which is not among the sources) returns the flat record of the account
with its derived attributes: home path derived from configuration and
address, and the fixed `vmail` owner identifiers. -/
def get_user_dict (config : Config) (user : Str) (enc_password : Str) :
    UserRecord :=
  { addr := user
    password := enc_password
    home := config.mailboxes_dir ++ '/' :: user
    uid := "vmail".data
    gid := "vmail".data }

/-- Modelled from the spec: `config.set_user_password` (from `config.py`,
which is not among the sources) durably writes the password file; per the
concurrency section creation is an atomic create-if-absent, so an
existing entry is never overwritten. -/
def set_user_password (store : Store) (user : Str) (enc_password : Str) :
    Store :=
  match lookupStore store user with
  | some _ => store
  | none => (user, enc_password) :: store

/-- Embedding of `encrypt_password` from `doveauth.py`: the external
`crypt.crypt` SHA512 primitive is the parameter `hashFn`; the result is
tagged with the scheme identifier. -/
def encrypt_password (hashFn : Str → Str) (password : Str) : Str :=
  "\x7bSHA512-CRYPT\x7d".data ++ hashFn password

/-- Embedding of `lookup_userdb` from `doveauth.py`: if the password file
of `user` exists, the record with the stored password and the derived
attributes; `none` embeds the falsy empty dictionary. -/
def lookup_userdb (config : Config) (store : Store) (user : Str) :
    Option UserRecord :=
  match lookupStore store user with
  | some stored => some (get_user_dict config user stored)
  | none => none

/-- Embedding of `lookup_passdb` from `doveauth.py`: returns the looked-up
or newly created record (`none` embeds Python `None`) together with the
resulting store. -/
def lookup_passdb (hashFn : Str → Str) (nocreate : Bool) (config : Config)
    (store : Store) (user : Str) (cleartext_password : Str) :
    Option UserRecord × Store :=
  match lookup_userdb config store user with
  | some userdata => (some userdata, store)
  | none =>
    if is_allowed_to_create nocreate config user cleartext_password then
      let enc := encrypt_password hashFn cleartext_password
      (some (get_user_dict config user enc), set_user_password store user enc)
    else (none, store)

/-- C1: for an address with a stored password record, `lookup_passdb`
returns that stored record unconditionally and leaves the store unchanged:
the result does not depend on the supplied password, so two calls with
different passwords both return the stored record and the stored hash
stays as it is. -/
theorem lookup_passdb_existing_unchanged (hashFn : Str → Str) (nocreate : Bool)
    (config : Config) (store : Store) (user stored pw pw2 : Str)
    (h : lookupStore store user = some stored) :
    lookup_passdb hashFn nocreate config store user pw
      = (some (get_user_dict config user stored), store) ∧
    lookup_passdb hashFn nocreate config store user pw
      = lookup_passdb hashFn nocreate config store user pw2 := by
  have hu : lookup_userdb config store user
      = some (get_user_dict config user stored) := by
    simp [lookup_userdb, h]
  constructor <;> simp [lookup_passdb, hu]

/-- Sample store with one established account, used by concrete witnesses. -/
def store1 : Store := [("a12345@example.org".data, "h1".data)]

/-- Witness for C1 at a concrete store, address and password pair. -/
theorem lookup_passdb_existing_unchanged_witness :
    lookupStore store1 "a12345@example.org".data = some "h1".data ∧
    lookup_passdb (fun s => s) false cfgBounds store1
        "a12345@example.org".data "pw1".data
      = (some (get_user_dict cfgBounds "a12345@example.org".data "h1".data),
         store1) :=
  ⟨by decide,
   (lookup_passdb_existing_unchanged (fun s => s) false cfgBounds store1
      "a12345@example.org".data "h1".data "pw1".data "pw2".data (by decide)).1⟩

/-- C10: when the address has no record and the policy rejects the
password, `lookup_passdb` returns `none` and writes nothing: the resulting
store is the original one and a subsequent `lookup_userdb` on it still
returns `none`. -/
theorem lookup_passdb_rejected_no_write (hashFn : Str → Str) (nocreate : Bool)
    (config : Config) (store : Store) (user pw : Str)
    (habs : lookupStore store user = none)
    (hpol : is_allowed_to_create nocreate config user pw = false) :
    lookup_passdb hashFn nocreate config store user pw = (none, store) ∧
    lookup_userdb config
      (lookup_passdb hashFn nocreate config store user pw).2 user = none := by
  have hu : lookup_userdb config store user = none := by
    simp [lookup_userdb, habs]
  have h1 : lookup_passdb hashFn nocreate config store user pw = (none, store) := by
    simp [lookup_passdb, hu, hpol]
  exact ⟨h1, by rw [h1]; exact hu⟩

/-- Witness for C10 at a concrete empty store and policy-rejected (too
short) password. -/
theorem lookup_passdb_rejected_no_write_witness :
    lookupStore [] "a12345@example.org".data = none ∧
    is_allowed_to_create false cfgBounds "a12345@example.org".data [] = false ∧
    lookup_passdb (fun s => s) false cfgBounds []
        "a12345@example.org".data [] = (none, []) :=
  ⟨by decide, by decide,
   (lookup_passdb_rejected_no_write (fun s => s) false cfgBounds []
      "a12345@example.org".data [] (by decide) (by decide)).1⟩

/-- Loop of `split_and_unescape` from `doveauth.py`: `segs` holds the
segments yielded so far and `out` the segment being accumulated.  A
backslash consumes the next character literally; a backslash as the last
character raises `IndexError`, embedded as `none`; a double quote yields
the current segment; the end of input yields the final segment. -/
def split_and_unescape_go (segs : List Str) (out : Str) :
    Str → Option (List Str)
  | [] => some (segs ++ [out])
  | '\\' :: [] => none
  | '\\' :: d :: rest2 => split_and_unescape_go segs (out ++ [d]) rest2
  | '"' :: rest => split_and_unescape_go (segs ++ [out]) [] rest
  | c :: rest => split_and_unescape_go segs (out ++ [c]) rest

/-- Embedding of `split_and_unescape` from `doveauth.py` (the generator is
consumed into a list at its call sites): `none` embeds the `IndexError`
raised on a trailing escape character. -/
def split_and_unescape (s : Str) : Option (List Str) :=
  split_and_unescape_go [] [] s

/-- Escapes one field for the wire format: each backslash or double quote
is preceded by a backslash. -/
def escape_field : Str → Str
  | [] => []
  | c :: rest =>
    (if c = '\\' ∨ c = '"' then ['\\', c] else [c]) ++ escape_field rest

/-- Joins escaped fields with the double-quote separator (Python
`'"'.join(map(escape, fields))`). -/
def escape_join : List Str → Str
  | [] => []
  | [f] => escape_field f
  | f :: fs => escape_field f ++ '"' :: escape_join fs

theorem go_escape_field (f : Str) (segs : List Str) (out rest : Str) :
    split_and_unescape_go segs out (escape_field f ++ rest)
      = split_and_unescape_go segs (out ++ f) rest := by
  induction f generalizing out with
  | nil => simp [escape_field]
  | cons c cs ih =>
    by_cases hc : c = '\\' ∨ c = '"'
    · have h1 : split_and_unescape_go segs out (escape_field (c :: cs) ++ rest)
          = split_and_unescape_go segs (out ++ [c]) (escape_field cs ++ rest) := by
        simp [escape_field, hc, split_and_unescape_go]
      rw [h1, ih]
      simp
    · push_neg at hc
      have h1 : split_and_unescape_go segs out (escape_field (c :: cs) ++ rest)
          = split_and_unescape_go segs (out ++ [c]) (escape_field cs ++ rest) := by
        simp [escape_field, hc.1, hc.2, split_and_unescape_go]
      rw [h1, ih]
      simp

theorem go_escape_join (fs : List Str) (f : Str) (segs : List Str) (out : Str) :
    split_and_unescape_go segs out (escape_join (f :: fs))
      = some (segs ++ (out ++ f) :: fs) := by
  induction fs generalizing f segs out with
  | nil =>
    have h1 := go_escape_field f segs out []
    simp only [escape_join, List.append_nil] at h1 ⊢
    rw [h1]
    simp [split_and_unescape_go]
  | cons f2 fs2 ih =>
    have h1 : escape_join (f :: f2 :: fs2)
        = escape_field f ++ '"' :: escape_join (f2 :: fs2) := by
      simp [escape_join]
    rw [h1, go_escape_field]
    have h2 : split_and_unescape_go segs (out ++ f)
        ('"' :: escape_join (f2 :: fs2))
        = split_and_unescape_go (segs ++ [out ++ f]) [] (escape_join (f2 :: fs2)) := by
      simp [split_and_unescape_go]
    rw [h2, ih f2 (segs ++ [out ++ f]) []]
    simp

/-- C6 counterexample: for the empty list of fields the claimed round trip
fails: joining no fields gives the empty string, and tokenizing the empty
string yields one empty segment, not the empty list. -/
theorem tokenize_escape_empty_counterexample :
    split_and_unescape (escape_join []) = some [[]] ∧
    ([[]] : List Str) ≠ ([] : List Str) := by
  constructor
  · rfl
  · decide

/-- C6 (amended to nonempty field lists): for every nonempty list of
fields, tokenizing the string built by escaping each field and joining
with the double-quote separator returns exactly the original fields. -/
theorem tokenize_escape_roundtrip (fields : List Str) (h : fields ≠ []) :
    split_and_unescape (escape_join fields) = some fields := by
  match fields with
  | [] => exact absurd rfl h
  | f :: fs =>
    have := go_escape_join fs f [] []
    simpa [split_and_unescape] using this

/-- Witness for C6 on a concrete field list containing the separator and
the escape character. -/
theorem tokenize_escape_roundtrip_witness :
    (["ab".data, "c\"d\\e".data, []] : List Str) ≠ [] ∧
    split_and_unescape (escape_join ["ab".data, "c\"d\\e".data, []])
      = some ["ab".data, "c\"d\\e".data, []] :=
  ⟨by decide,
   tokenize_escape_roundtrip ["ab".data, "c\"d\\e".data, []] (by decide)⟩

theorem go_no_escape (s : Str) (h : '\\' ∉ s) (segs : List Str) (out : Str) :
    split_and_unescape_go segs out s
      = some (segs ++ (out ++ (pySplitF '"' s).1) :: (pySplitF '"' s).2) := by
  induction s generalizing segs out with
  | nil => simp [split_and_unescape_go, pySplitF]
  | cons c rest ih =>
    have hc : ¬ c = '\\' := fun e => h (e ▸ List.mem_cons_self c rest)
    have hrest : '\\' ∉ rest := fun e => h (List.mem_cons_of_mem c e)
    by_cases hq : c = '"'
    · subst hq
      rw [show split_and_unescape_go segs out ('"' :: rest)
          = split_and_unescape_go (segs ++ [out]) [] rest by
          simp [split_and_unescape_go]]
      rw [ih hrest]
      simp [pySplitF]
    · rw [show split_and_unescape_go segs out (c :: rest)
          = split_and_unescape_go segs (out ++ [c]) rest by
          simp [split_and_unescape_go, hc, hq]]
      rw [ih hrest]
      simp [pySplitF, hq]

theorem pySplitF_count (sep : Char) (s : Str) :
    ((pySplitF sep s).2).length = s.count sep := by
  induction s with
  | nil => simp [pySplitF]
  | cons c rest ih =>
    by_cases hc : c = sep
    · subst hc; simp [pySplitF, ih, List.count_cons]
    · simp [pySplitF, hc, ih, List.count_cons, Ne.symm hc]

/-- C9: on inputs without the escape character the tokenizer agrees with a
plain split on the double quote; the number of segments is the number of
double quotes plus one, and the empty input yields exactly one empty
segment. -/
theorem tokenize_no_escape_plain_split (s : Str) (h : '\\' ∉ s) :
    split_and_unescape s = some (pySplit '"' s) ∧
    (pySplit '"' s).length = s.count '"' + 1 ∧
    split_and_unescape [] = some [[]] := by
  refine ⟨?_, ?_, rfl⟩
  · have := go_no_escape s h [] []
    simpa [split_and_unescape, pySplit] using this
  · simp [pySplit, pySplitF_count]

/-- Witness for C9 on a concrete escape-free input. -/
theorem tokenize_no_escape_plain_split_witness :
    ('\\' ∉ "ab\"cd\"".data) ∧
    split_and_unescape "ab\"cd\"".data = some (pySplit '"' "ab\"cd\"".data) :=
  ⟨by decide,
   (tokenize_no_escape_plain_split "ab\"cd\"".data (by decide)).1⟩

/-- Returns the parts of `s` before and after the first occurrence of
`sep`, or `none` when `sep` does not occur in `s`. -/
def breakAt (sep : Char) : Str → Option (Str × Str)
  | [] => none
  | c :: rest =>
    if c = sep then some ([], rest)
    else (breakAt sep rest).map (fun p => (c :: p.1, p.2))

/-- Embedding of `keyname.split("/", 2)` followed by unpacking into three
names, as done in `handle_lookup`: `none` embeds the `ValueError` raised
when there are fewer than three parts. -/
def splitSlash2 (s : Str) : Option (Str × Str × Str) :=
  match breakAt '/' s with
  | none => none
  | some (a, r) =>
    match breakAt '/' r with
    | none => none
    | some (b, c) => some (a, b, c)

/-- Embedding of `AuthDictProxy.handle_lookup` from `doveauth.py`; the
store and the nocreate flag stand for the filesystem state read through
`self.config`, and the external `json.dumps` serializer is the parameter
`jsonDumps`.  The outer `none` embeds an exception escaping
`handle_lookup` (`IndexError` on the parts or args lists or from the
tokenizer, `ValueError` from unpacking the keyname); otherwise the reply
line and the resulting store are returned. -/
def handle_lookup (jsonDumps : UserRecord → Str) (hashFn : Str → Str)
    (nocreate : Bool) (config : Config) (store : Store)
    (parts : List Str) : Option (Str × Store) :=
  match parts with
  | [] => none
  | keyname :: _ =>
    match splitSlash2 keyname with
    | none => none
    | some (ns, ty, argstr) =>
      match split_and_unescape argstr with
      | none => none
      | some args =>
        if ns = "shared".data then
          if ty = "userdb".data then
            match args with
            | [] => none
            | user :: _ =>
              match (if ('@' :: config.mail_domain).isSuffixOf user
                     then lookup_userdb config store user else none) with
              | some r => some ('O' :: jsonDumps r ++ ['\n'], store)
              | none => some (['N', '\n'], store)
          else if ty = "passdb".data then
            match args with
            | pw :: user :: _ =>
              if ('@' :: config.mail_domain).isSuffixOf user then
                match lookup_passdb hashFn nocreate config store user pw with
                | (some r, store2) => some ('O' :: jsonDumps r ++ ['\n'], store2)
                | (none, store2) => some (['N', '\n'], store2)
              else some (['N', '\n'], store)
            | _ => none
          else some (['F', '\n'], store)
        else some (['F', '\n'], store)

/-- Trivial serializer stand-in used by concrete witnesses. -/
def jd0 : UserRecord → Str := fun _ => []

/-- Identity hash stand-in used by concrete witnesses. -/
def hf0 : Str → Str := fun s => s

/-- C3 counterexample: on the lookup request `shared/userdb/ab\` (escaped
argument blob ending in a lone escape character) `handle_lookup` does not
return the failure reply; the tokenizer's `IndexError` escapes, embedded
as `none`. -/
theorem handle_lookup_invalid_escape_counterexample :
    handle_lookup jd0 hf0 false cfgBounds [] ["shared/userdb/ab\\".data]
      = none := by
  rfl

/-- C3 (amended): a malformed lookup line makes `handle_lookup` raise
(embedded as `none`) rather than reply `F`: this happens when the escaped
argument blob ends in an unescaped escape character and when the second
positional field of a `shared/passdb` request is missing.  The `F` reply
with a newline is produced exactly for well-tokenized lines whose
namespace/kind is not `shared/userdb` or `shared/passdb`, and no other
outcome exists. -/
theorem handle_lookup_malformed_raises :
    (∀ (jd : UserRecord → Str) (hf : Str → Str) (nc : Bool) (cfg : Config)
       (store : Store) (keyname : Str) (rest : List Str) (ns ty argstr : Str),
       splitSlash2 keyname = some (ns, ty, argstr) →
       split_and_unescape argstr = none →
       handle_lookup jd hf nc cfg store (keyname :: rest) = none) ∧
    (∀ (jd : UserRecord → Str) (hf : Str → Str) (nc : Bool) (cfg : Config)
       (store : Store) (keyname : Str) (rest : List Str) (argstr a : Str),
       splitSlash2 keyname = some ("shared".data, "passdb".data, argstr) →
       split_and_unescape argstr = some [a] →
       handle_lookup jd hf nc cfg store (keyname :: rest) = none) ∧
    (∀ (jd : UserRecord → Str) (hf : Str → Str) (nc : Bool) (cfg : Config)
       (store : Store) (keyname : Str) (rest : List Str) (ns ty argstr : Str)
       (args : List Str),
       splitSlash2 keyname = some (ns, ty, argstr) →
       split_and_unescape argstr = some args →
       ¬(ns = "shared".data ∧ (ty = "userdb".data ∨ ty = "passdb".data)) →
       handle_lookup jd hf nc cfg store (keyname :: rest)
         = some (['F', '\n'], store)) := by
  refine ⟨?_, ?_, ?_⟩
  · intro jd hf nc cfg store keyname rest ns ty argstr hsp hsu
    simp [handle_lookup, hsp, hsu]
  · intro jd hf nc cfg store keyname rest argstr a hsp hsu
    simp [handle_lookup, hsp, hsu]
  · intro jd hf nc cfg store keyname rest ns ty argstr args hsp hsu hrec
    by_cases hns : ns = "shared".data
    · by_cases hty1 : ty = "userdb".data
      · exact absurd ⟨hns, Or.inl hty1⟩ hrec
      · by_cases hty2 : ty = "passdb".data
        · exact absurd ⟨hns, Or.inr hty2⟩ hrec
        · simp [handle_lookup, hsp, hsu, hns, hty1, hty2]
    · simp [handle_lookup, hsp, hsu, hns]

/-- Witness for C3 at a concrete malformed request (`shared/passdb` with
an argument blob ending in a lone escape). -/
theorem handle_lookup_malformed_raises_witness :
    splitSlash2 "shared/passdb/x\\".data
      = some ("shared".data, "passdb".data, "x\\".data) ∧
    split_and_unescape "x\\".data = none ∧
    handle_lookup jd0 hf0 false cfgBounds store1 ["shared/passdb/x\\".data]
      = none :=
  ⟨by decide, by decide,
   handle_lookup_malformed_raises.1 jd0 hf0 false cfgBounds store1
     "shared/passdb/x\\".data [] "shared".data "passdb".data "x\\".data
     (by decide) (by decide)⟩

/-- Characterization of every reply-producing `handle_lookup` call: the
request line decomposes, and exactly one of five routing outcomes
happened. -/
theorem handle_lookup_spec (jd : UserRecord → Str) (hf : Str → Str)
    (nc : Bool) (cfg : Config) (store store2 : Store) (parts : List Str)
    (reply : Str)
    (h : handle_lookup jd hf nc cfg store parts = some (reply, store2)) :
    ∃ keyname rest ns ty argstr args,
      parts = keyname :: rest ∧ splitSlash2 keyname = some (ns, ty, argstr) ∧
      split_and_unescape argstr = some args ∧
      ((ns = "shared".data ∧ ty = "userdb".data ∧
          ∃ user urest r, args = user :: urest ∧
            ('@' :: cfg.mail_domain).isSuffixOf user = true ∧
            lookup_userdb cfg store user = some r ∧
            reply = 'O' :: jd r ++ ['\n'] ∧ store2 = store) ∨
       (ns = "shared".data ∧ ty = "userdb".data ∧
          ∃ user urest, args = user :: urest ∧
            (('@' :: cfg.mail_domain).isSuffixOf user = false ∨
              lookup_userdb cfg store user = none) ∧
            reply = ['N', '\n'] ∧ store2 = store) ∨
       (ns = "shared".data ∧ ty = "passdb".data ∧
          ∃ pw user urest r, args = pw :: user :: urest ∧
            ('@' :: cfg.mail_domain).isSuffixOf user = true ∧
            lookup_passdb hf nc cfg store user pw = (some r, store2) ∧
            reply = 'O' :: jd r ++ ['\n']) ∨
       (ns = "shared".data ∧ ty = "passdb".data ∧
          ∃ pw user urest, args = pw :: user :: urest ∧
            ((('@' :: cfg.mail_domain).isSuffixOf user = false ∧
                store2 = store) ∨
              (('@' :: cfg.mail_domain).isSuffixOf user = true ∧
                lookup_passdb hf nc cfg store user pw = (none, store2))) ∧
            reply = ['N', '\n']) ∨
       (¬(ns = "shared".data ∧ (ty = "userdb".data ∨ ty = "passdb".data)) ∧
          reply = ['F', '\n'] ∧ store2 = store)) := by
  cases parts with
  | nil => simp [handle_lookup] at h
  | cons keyname rest =>
    cases hsp : splitSlash2 keyname with
    | none => simp [handle_lookup, hsp] at h
    | some t =>
      obtain ⟨ns0, ty0, argstr0⟩ := t
      cases hsu : split_and_unescape argstr0 with
      | none => simp [handle_lookup, hsp, hsu] at h
      | some args0 =>
        refine ⟨keyname, rest, ns0, ty0, argstr0, args0, rfl, hsp, hsu, ?_⟩
        by_cases hns : ns0 = "shared".data
        · by_cases hty1 : ty0 = "userdb".data
          · cases args0 with
            | nil => simp [handle_lookup, hsp, hsu, hns, hty1] at h
            | cons user0 urest0 =>
              cases hsf : ('@' :: cfg.mail_domain).isSuffixOf user0 with
              | false =>
                have hres : handle_lookup jd hf nc cfg store (keyname :: rest)
                    = some (['N', '\n'], store) := by
                  simp [handle_lookup, hsp, hsu, hns, hty1, hsf]
                rw [hres] at h
                simp only [Option.some.injEq, Prod.mk.injEq] at h
                obtain ⟨h1, h2⟩ := h
                exact Or.inr (Or.inl ⟨hns, hty1, user0, urest0, rfl,
                  Or.inl hsf, h1.symm, h2.symm⟩)
              | true =>
                cases hlu : lookup_userdb cfg store user0 with
                | none =>
                  have hres : handle_lookup jd hf nc cfg store (keyname :: rest)
                      = some (['N', '\n'], store) := by
                    simp [handle_lookup, hsp, hsu, hns, hty1, hsf, hlu]
                  rw [hres] at h
                  simp only [Option.some.injEq, Prod.mk.injEq] at h
                  obtain ⟨h1, h2⟩ := h
                  exact Or.inr (Or.inl ⟨hns, hty1, user0, urest0, rfl,
                    Or.inr hlu, h1.symm, h2.symm⟩)
                | some r =>
                  have hres : handle_lookup jd hf nc cfg store (keyname :: rest)
                      = some ('O' :: jd r ++ ['\n'], store) := by
                    simp [handle_lookup, hsp, hsu, hns, hty1, hsf, hlu]
                  rw [hres] at h
                  simp only [Option.some.injEq, Prod.mk.injEq] at h
                  obtain ⟨h1, h2⟩ := h
                  exact Or.inl ⟨hns, hty1, user0, urest0, r, rfl, hsf, hlu,
                    h1.symm, h2.symm⟩
          · by_cases hty2 : ty0 = "passdb".data
            · match hargs : args0 with
              | [] => simp [handle_lookup, hsp, hsu, hns, hty1, hty2] at h
              | [a] => simp [handle_lookup, hsp, hsu, hns, hty1, hty2] at h
              | pw0 :: user0 :: urest0 =>
                cases hsf : ('@' :: cfg.mail_domain).isSuffixOf user0 with
                | false =>
                  have hres : handle_lookup jd hf nc cfg store (keyname :: rest)
                      = some (['N', '\n'], store) := by
                    simp [handle_lookup, hsp, hsu, hns, hty1, hty2, hsf]
                  rw [hres] at h
                  simp only [Option.some.injEq, Prod.mk.injEq] at h
                  obtain ⟨h1, h2⟩ := h
                  exact Or.inr (Or.inr (Or.inr (Or.inl ⟨hns, hty2, pw0, user0,
                    urest0, rfl, Or.inl ⟨hsf, h2.symm⟩, h1.symm⟩)))
                | true =>
                  rcases hlp : lookup_passdb hf nc cfg store user0 pw0
                    with ⟨resOpt, st2⟩
                  cases resOpt with
                  | none =>
                    have hres : handle_lookup jd hf nc cfg store (keyname :: rest)
                        = some (['N', '\n'], st2) := by
                      simp [handle_lookup, hsp, hsu, hns, hty1, hty2, hsf, hlp]
                    rw [hres] at h
                    simp only [Option.some.injEq, Prod.mk.injEq] at h
                    obtain ⟨h1, h2⟩ := h
                    refine Or.inr (Or.inr (Or.inr (Or.inl ⟨hns, hty2, pw0, user0,
                      urest0, rfl, Or.inr ⟨hsf, ?_⟩, h1.symm⟩)))
                    rw [hlp, h2]
                  | some r =>
                    have hres : handle_lookup jd hf nc cfg store (keyname :: rest)
                        = some ('O' :: jd r ++ ['\n'], st2) := by
                      simp [handle_lookup, hsp, hsu, hns, hty1, hty2, hsf, hlp]
                    rw [hres] at h
                    simp only [Option.some.injEq, Prod.mk.injEq] at h
                    obtain ⟨h1, h2⟩ := h
                    refine Or.inr (Or.inr (Or.inl ⟨hns, hty2, pw0, user0, urest0,
                      r, rfl, hsf, ?_, h1.symm⟩))
                    rw [hlp, h2]
            · have hres : handle_lookup jd hf nc cfg store (keyname :: rest)
                  = some (['F', '\n'], store) := by
                simp [handle_lookup, hsp, hsu, hns, hty1, hty2]
              rw [hres] at h
              simp only [Option.some.injEq, Prod.mk.injEq] at h
              obtain ⟨h1, h2⟩ := h
              refine Or.inr (Or.inr (Or.inr (Or.inr ⟨?_, h1.symm, h2.symm⟩)))
              rintro ⟨-, hty⟩
              rcases hty with hty | hty
              · exact hty1 hty
              · exact hty2 hty
        · have hres : handle_lookup jd hf nc cfg store (keyname :: rest)
              = some (['F', '\n'], store) := by
            simp [handle_lookup, hsp, hsu, hns]
          rw [hres] at h
          simp only [Option.some.injEq, Prod.mk.injEq] at h
          obtain ⟨h1, h2⟩ := h
          refine Or.inr (Or.inr (Or.inr (Or.inr ⟨?_, h1.symm, h2.symm⟩)))
          rintro ⟨hns2, -⟩
          exact hns hns2

/-- C7: every reply produced by `handle_lookup` is one of three forms,
each a newline-free body followed by a single newline: `O` plus the
serialized record exactly when the routed lookup returned a record; `N`
with empty payload when the namespace/kind is recognized
(`shared/userdb` or `shared/passdb`) but the result is absent, in
particular whenever the requested address does not end with `@` plus the
configured mail domain; and `F` with empty payload for any other
namespace/kind. -/
theorem handle_lookup_reply_forms
    (jd : UserRecord → Str) (hf : Str → Str) (nc : Bool) (cfg : Config)
    (store store2 : Store) (parts : List Str) (reply : Str)
    (hjd : ∀ r, '\n' ∉ jd r)
    (h : handle_lookup jd hf nc cfg store parts = some (reply, store2)) :
    (∃ body, reply = body ++ ['\n'] ∧ '\n' ∉ body) ∧
    (∃ keyname rest ns ty argstr args,
      parts = keyname :: rest ∧ splitSlash2 keyname = some (ns, ty, argstr) ∧
      split_and_unescape argstr = some args ∧
      ((∃ r, reply = 'O' :: jd r ++ ['\n'] ∧ ns = "shared".data ∧
          ((ty = "userdb".data ∧ ∃ user urest, args = user :: urest ∧
              ('@' :: cfg.mail_domain).isSuffixOf user = true ∧
              lookup_userdb cfg store user = some r ∧ store2 = store) ∨
           (ty = "passdb".data ∧ ∃ pw user urest, args = pw :: user :: urest ∧
              ('@' :: cfg.mail_domain).isSuffixOf user = true ∧
              lookup_passdb hf nc cfg store user pw = (some r, store2)))) ∨
       (reply = ['N', '\n'] ∧ ns = "shared".data ∧
          (ty = "userdb".data ∨ ty = "passdb".data)) ∨
       (reply = ['F', '\n'] ∧
          ¬(ns = "shared".data ∧ (ty = "userdb".data ∨ ty = "passdb".data))))) ∧
    (∀ keyname rest argstr args user urest,
      parts = keyname :: rest →
      splitSlash2 keyname = some ("shared".data, "userdb".data, argstr) →
      split_and_unescape argstr = some args → args = user :: urest →
      (('@' :: cfg.mail_domain).isSuffixOf user = false ∨
        lookup_userdb cfg store user = none) →
      reply = ['N', '\n']) ∧
    (∀ keyname rest argstr args pw user urest,
      parts = keyname :: rest →
      splitSlash2 keyname = some ("shared".data, "passdb".data, argstr) →
      split_and_unescape argstr = some args → args = pw :: user :: urest →
      (('@' :: cfg.mail_domain).isSuffixOf user = false ∨
        (lookup_passdb hf nc cfg store user pw).1 = none) →
      reply = ['N', '\n']) := by
  obtain ⟨keyname, rest, ns0, ty0, argstr0, args0, hparts, hsp, hsu, hbig⟩ :=
    handle_lookup_spec jd hf nc cfg store store2 parts reply h
  refine ⟨?_, ?_, ?_, ?_⟩
  · rcases hbig with ⟨-, -, user0, urest0, r, -, -, -, hr, -⟩ |
      ⟨-, -, user0, urest0, -, -, hr, -⟩ |
      ⟨-, -, pw0, user0, urest0, r, -, -, -, hr⟩ |
      ⟨-, -, pw0, user0, urest0, -, -, hr⟩ | ⟨-, hr, -⟩
    · refine ⟨'O' :: jd r, by simp [hr], ?_⟩
      intro hm
      rcases List.mem_cons.mp hm with he | hm2
      · exact absurd he (by decide)
      · exact hjd r hm2
    · exact ⟨['N'], by simp [hr], by decide⟩
    · refine ⟨'O' :: jd r, by simp [hr], ?_⟩
      intro hm
      rcases List.mem_cons.mp hm with he | hm2
      · exact absurd he (by decide)
      · exact hjd r hm2
    · exact ⟨['N'], by simp [hr], by decide⟩
    · exact ⟨['F'], by simp [hr], by decide⟩
  · refine ⟨keyname, rest, ns0, ty0, argstr0, args0, hparts, hsp, hsu, ?_⟩
    rcases hbig with ⟨hns, hty, user0, urest0, r, hargs, hsf, hlu, hr, hst⟩ |
      ⟨hns, hty, user0, urest0, hargs, hcond, hr, hst⟩ |
      ⟨hns, hty, pw0, user0, urest0, r, hargs, hsf, hlp, hr⟩ |
      ⟨hns, hty, pw0, user0, urest0, hargs, hcond, hr⟩ | ⟨hnrec, hr, hst⟩
    · exact Or.inl ⟨r, hr, hns, Or.inl ⟨hty, user0, urest0, hargs, hsf, hlu, hst⟩⟩
    · exact Or.inr (Or.inl ⟨hr, hns, Or.inl hty⟩)
    · exact Or.inl ⟨r, hr, hns, Or.inr ⟨hty, pw0, user0, urest0, hargs, hsf, hlp⟩⟩
    · exact Or.inr (Or.inl ⟨hr, hns, Or.inr hty⟩)
    · exact Or.inr (Or.inr ⟨hr, hnrec⟩)
  · intro keyname2 rest2 argstr2 args2 user2 urest2 hp2 hsp2 hsu2 hargs2 hcond2
    subst hp2
    have hres : handle_lookup jd hf nc cfg store (keyname2 :: rest2)
        = some (['N', '\n'], store) := by
      cases hsfx : ('@' :: cfg.mail_domain).isSuffixOf user2 with
      | false => simp [handle_lookup, hsp2, hsu2, hargs2, hsfx]
      | true =>
        rcases hcond2 with hc | hc
        · rw [hsfx] at hc
          exact absurd hc (by decide)
        · simp [handle_lookup, hsp2, hsu2, hargs2, hsfx, hc]
    rw [hres] at h
    simp only [Option.some.injEq, Prod.mk.injEq] at h
    exact h.1.symm
  · intro keyname2 rest2 argstr2 args2 pw2 user2 urest2 hp2 hsp2 hsu2 hargs2 hcond2
    subst hp2
    rcases hlp : lookup_passdb hf nc cfg store user2 pw2 with ⟨resOpt, st2⟩
    have hres : ∃ st3, handle_lookup jd hf nc cfg store (keyname2 :: rest2)
        = some (['N', '\n'], st3) := by
      cases hsfx : ('@' :: cfg.mail_domain).isSuffixOf user2 with
      | false => exact ⟨store, by simp [handle_lookup, hsp2, hsu2, hargs2, hsfx]⟩
      | true =>
        rcases hcond2 with hc | hc
        · rw [hsfx] at hc
          exact absurd hc (by decide)
        · rw [hlp] at hc
          simp only at hc
          subst hc
          exact ⟨st2, by simp [handle_lookup, hsp2, hsu2, hargs2, hsfx, hlp]⟩
    obtain ⟨st3, hres⟩ := hres
    rw [hres] at h
    simp only [Option.some.injEq, Prod.mk.injEq] at h
    exact h.1.symm

/-- Witness for C7 on a concrete `shared/userdb` request that finds the
established account of `store1`. -/
theorem handle_lookup_reply_forms_witness :
    (∀ r, '\n' ∉ jd0 r) ∧
    (∃ body, (['O', '\n'] : Str) = body ++ ['\n'] ∧ '\n' ∉ body) :=
  ⟨fun r => by simp [jd0],
   (handle_lookup_reply_forms jd0 hf0 false cfgBounds store1 store1
      ["shared/userdb/a12345@example.org".data] ['O', '\n']
      (fun r => by simp [jd0]) (by rfl)).1⟩

/-- Embedding of `AuthDictProxy.iter_userdb` from `doveauth.py`: the names
of the entries of the mailboxes directory (the store's established
account directories) that contain an `@`. -/
def iter_userdb (store : Store) : List Str :=
  (store.map Prod.fst).filter (fun name => decide ('@' ∈ name))

/-- One found line of the iterate reply:
`Oshared/userdb/<address>` followed by a tab and a newline. -/
def iterLine (user : Str) : Str :=
  "Oshared/userdb/".data ++ user ++ ['\t', '\n']

/-- Embedding of `AuthDictProxy.handle_iterate` from `doveauth.py`: the
outer `none` embeds the `IndexError` raised when `parts` has fewer than
three entries; `some none` embeds the implicit Python `None` returned for
an unrecognized request; `some (some reply)` is a produced reply. -/
def handle_iterate (store : Store) (parts : List Str) :
    Option (Option Str) :=
  match parts[2]? with
  | none => none
  | some p =>
    if p = "shared/userdb/".data then
      some (some (((iter_userdb store).map iterLine).flatten ++ ['\n']))
    else some none

theorem iterLine_injective : Function.Injective iterLine := by
  intro a b hab
  unfold iterLine at hab
  exact List.append_cancel_left (List.append_cancel_right hab)

/-- C8: in a store whose established accounts are exactly the pairwise
distinct addresses `store.map Prod.fst` (each containing an `@`), an
iterate request whose third field is `shared/userdb/` replies with the
concatenation of one found line per established address — the lines are
pairwise distinct, and a found line for `a` occurs iff `a` is established
— followed by a terminating blank line. -/
theorem handle_iterate_complete (store : Store) (parts : List Str)
    (hp : parts[2]? = some "shared/userdb/".data)
    (hat : ∀ a ∈ store.map Prod.fst, '@' ∈ a)
    (hnd : (store.map Prod.fst).Nodup) :
    iter_userdb store = store.map Prod.fst ∧
    handle_iterate store parts
      = some (some (((store.map Prod.fst).map iterLine).flatten ++ ['\n'])) ∧
    ((store.map Prod.fst).map iterLine).Nodup ∧
    (∀ a, iterLine a ∈ (store.map Prod.fst).map iterLine
      ↔ a ∈ store.map Prod.fst) := by
  have hiter : iter_userdb store = store.map Prod.fst := by
    unfold iter_userdb
    apply List.filter_eq_self.mpr
    intro a ha
    simpa using hat a ha
  refine ⟨hiter, by simp [handle_iterate, hp, hiter], hnd.map iterLine_injective, ?_⟩
  intro a
  constructor
  · intro hm
    obtain ⟨b, hb, he⟩ := List.mem_map.mp hm
    exact (iterLine_injective he) ▸ hb
  · intro hm
    exact List.mem_map_of_mem iterLine hm

/-- Sample two-account store used by the C8 witness. -/
def storeTwo : Store :=
  [("a12345@example.org".data, "h1".data),
   ("b12345@example.org".data, "h2".data)]

/-- Sample iterate request parts used by the C8 witness. -/
def iterParts : List Str := ["I0".data, "0".data, "shared/userdb/".data]

/-- Witness for C8 on a concrete two-account store. -/
theorem handle_iterate_complete_witness :
    iterParts[2]? = some "shared/userdb/".data ∧
    iter_userdb storeTwo = storeTwo.map Prod.fst ∧
    handle_iterate storeTwo iterParts
      = some (some (((storeTwo.map Prod.fst).map iterLine).flatten ++ ['\n'])) :=
  ⟨by decide,
   (handle_iterate_complete storeTwo iterParts (by decide) (by decide)
      (by decide)).1,
   (handle_iterate_complete storeTwo iterParts (by decide) (by decide)
      (by decide)).2.1⟩

/-- Modelled from the spec: thread-local control state of one
`lookupOrCreate` racer for a single not-yet-existing address (the store
adapter in `config.py` is not among the sources; per the spec its creation
primitive is an atomic create-if-absent, and a racer whose exclusive
create fails re-reads and returns the winner's record). -/
inductive TState where
  | ready
  | creating
  | rereading
  | finished (hash : Str)
deriving DecidableEq

/-- Modelled from the spec: shared state of two `lookupOrCreate` calls
racing on one address: the stored hash (if any), both thread states, and
the number of creations that succeeded so far. -/
structure RaceSys where
  cell : Option Str
  t1 : TState
  t2 : TState
  creations : Nat
deriving DecidableEq

/-- Modelled from the spec: one atomic step of a racer whose candidate
encrypted password is `enc`: read (return the record if present, else head
for creation), atomic create-if-absent (succeed and return the own record,
or lose and go re-read), or re-read after losing.  Returns the new cell,
the new thread state, and 1 when a creation succeeded. -/
def threadStep (enc : Str) (cell : Option Str) :
    TState → Option Str × TState × Nat
  | .ready =>
    match cell with
    | some h => (cell, .finished h, 0)
    | none => (cell, .creating, 0)
  | .creating =>
    match cell with
    | some _ => (cell, .rereading, 0)
    | none => (some enc, .finished enc, 1)
  | .rereading =>
    match cell with
    | some h => (cell, .finished h, 0)
    | none => (cell, .rereading, 0)
  | .finished h => (cell, .finished h, 0)

/-- One scheduler step: `true` steps the first racer, `false` the second. -/
def raceStep (enc1 enc2 : Str) (s : RaceSys) (who : Bool) : RaceSys :=
  if who then
    let r := threadStep enc1 s.cell s.t1
    { cell := r.1, t1 := r.2.1, t2 := s.t2, creations := s.creations + r.2.2 }
  else
    let r := threadStep enc2 s.cell s.t2
    { cell := r.1, t1 := s.t1, t2 := r.2.1, creations := s.creations + r.2.2 }

/-- Runs an arbitrary interleaving (list of scheduler choices). -/
def raceRun (enc1 enc2 : Str) (s : RaceSys) : List Bool → RaceSys
  | [] => s
  | w :: ws => raceRun enc1 enc2 (raceStep enc1 enc2 s w) ws

/-- Initial state: address absent, both racers about to read. -/
def raceInit : RaceSys :=
  { cell := none, t1 := .ready, t2 := .ready, creations := 0 }

/-- Invariant of the race: at most one creation has succeeded, the cell is
filled exactly when one has, and every finished racer returned the hash
stored in the cell. -/
def raceInv (s : RaceSys) : Prop :=
  s.creations ≤ 1 ∧
  (s.cell = none ↔ s.creations = 0) ∧
  (∀ h, s.t1 = .finished h → s.cell = some h) ∧
  (∀ h, s.t2 = .finished h → s.cell = some h)

theorem raceInv_step (enc1 enc2 : Str) (s : RaceSys) (who : Bool)
    (hs : raceInv s) : raceInv (raceStep enc1 enc2 s who) := by
  obtain ⟨cell, t1, t2, k⟩ := s
  obtain ⟨hc1, hc2, hc3, hc4⟩ := hs
  cases who <;> cases cell <;> cases t1 <;> cases t2 <;>
    simp_all [raceStep, threadStep, raceInv]

theorem raceInv_run (enc1 enc2 : Str) (sched : List Bool) (s : RaceSys)
    (hs : raceInv s) : raceInv (raceRun enc1 enc2 s sched) := by
  induction sched generalizing s with
  | nil => exact hs
  | cons w ws ih => exact ih _ (raceInv_step enc1 enc2 s w hs)

theorem raceInit_inv : raceInv raceInit := by
  simp [raceInv, raceInit]

/-- C2: under every interleaving of two `lookupOrCreate` racers on a
single not-yet-existing address, at most one creation succeeds, and any
racer that finished returned the hash stored by the winner — in
particular two finished racers return the same record, nobody overwrites
the winner. -/
theorem race_at_most_one_create (enc1 enc2 : Str) (sched : List Bool) :
    (raceRun enc1 enc2 raceInit sched).creations ≤ 1 ∧
    (∀ h, (raceRun enc1 enc2 raceInit sched).t1 = TState.finished h →
      (raceRun enc1 enc2 raceInit sched).cell = some h) ∧
    (∀ h, (raceRun enc1 enc2 raceInit sched).t2 = TState.finished h →
      (raceRun enc1 enc2 raceInit sched).cell = some h) ∧
    (∀ h1 h2, (raceRun enc1 enc2 raceInit sched).t1 = TState.finished h1 →
      (raceRun enc1 enc2 raceInit sched).t2 = TState.finished h2 →
      h1 = h2) := by
  obtain ⟨hc1, hc2, hc3, hc4⟩ := raceInv_run enc1 enc2 sched raceInit raceInit_inv
  refine ⟨hc1, hc3, hc4, ?_⟩
  intro h1 h2 hf1 hf2
  have e1 := hc3 h1 hf1
  have e2 := hc4 h2 hf2
  rw [e1] at e2
  exact Option.some.inj e2

/-- Schedule used by the C2 witness: the first racer reads and creates,
then the second reads and finds the winner's record. -/
def sched0 : List Bool := [true, true, false]

/-- Witness for C2: on a concrete schedule both racers finish with the
winner's hash. -/
theorem race_at_most_one_create_witness :
    (raceRun ['a'] ['b'] raceInit sched0).t1 = TState.finished ['a'] ∧
    (raceRun ['a'] ['b'] raceInit sched0).t2 = TState.finished ['a'] ∧
    (['a'] : Str) = ['a'] :=
  ⟨by decide, by decide,
   (race_at_most_one_create ['a'] ['b'] sched0).2.2.2 ['a'] ['a']
     (by decide) (by decide)⟩
